import Mathlib

/-!
Verification of the virtual-background compositing core of the
VideoVoiceApp repository (file `src/src/App.jsx`, second document:
`useBackgroundEffect.draw`, the `FRAG_SRC` WebGL2 shader, the temporal
mask blender and the adaptive load controller).

CPU-side state (mask blending, skip-interval controller, frame pump) is
embedded over `ℚ`; the GLSL fragment shader, which uses `exp` and
`sqrt`, is embedded over `ℝ`.
-/

/-- Segmentation mask width, `const SEG_WIDTH = 256` (App.jsx line 1431). -/
def SEG_WIDTH : ℕ := 256

/-- Segmentation mask height, `const SEG_HEIGHT = 144` (App.jsx line 1432). -/
def SEG_HEIGHT : ℕ := 144

/-! ## Temporal mask blender (App.jsx lines 1749–1766)

`prev = blendMaskRef.current` is the blended mask left by the previous
invocation; `mask` is the fresh raw mask returned by the segmenter. -/

/-- `uncertainty = 1.0 - Math.abs(curr * 2.0 - 1.0)` (line 1763). -/
def uncertaintyOf (c : ℚ) : ℚ := 1 - |c * 2 - 1|

/-- `localAlpha = globalAlpha + uncertainty * (1.0 - globalAlpha)` (line 1764). -/
def localAlphaOf (g c : ℚ) : ℚ := g + uncertaintyOf c * (1 - g)

/-- `blend[i] = curr * localAlpha + blend[i] * (1.0 - localAlpha)` (line 1765). -/
def blendCell (g c b : ℚ) : ℚ := c * localAlphaOf g c + b * (1 - localAlphaOf g c)

/-- The strided accumulation `for (i = 0; i < mask.length; i += 16) diff +=
Math.abs(mask[i] - prev[i])` (lines 1754–1757): one sample every 16 cells,
`(len + 15) / 16` samples in total. -/
def stridedAbsSum (mask prev : List ℚ) : ℚ :=
  ∑ j ∈ Finset.range ((mask.length + 15) / 16),
    |mask.getD (16 * j) 0 - prev.getD (16 * j) 0|

/-- `diff /= (mask.length >> 4)` (line 1758). -/
def stridedDiff (mask prev : List ℚ) : ℚ :=
  stridedAbsSum mask prev / ((mask.length >>> 4 : ℕ) : ℚ)

/-- `globalAlpha = Math.min(0.9, 0.15 + diff * 6.0)` (line 1759). -/
def globalAlphaOf (mask prev : List ℚ) : ℚ :=
  min (9/10) (15/100 + stridedDiff mask prev * 6)

/-- The per-cell blend loop (lines 1760–1766), applied to the fresh raw
`mask` and the previous blended mask `prev` of the same length. -/
def blendMasks (mask prev : List ℚ) : List ℚ :=
  List.zipWith (fun c b => blendCell (globalAlphaOf mask prev) c b) mask prev

/-- Lines 1749–1767: `hasPrev = prev && prev.length === mask.length`; without
a usable history the blended mask is re-created as `new Float32Array(mask)`
(a direct copy), otherwise the blend loop runs. -/
def blendUpdate (prevOpt : Option (List ℚ)) (mask : List ℚ) : List ℚ :=
  match prevOpt with
  | none => mask
  | some prev => if prev.length = mask.length then blendMasks mask prev else mask

/-- Repeated blender invocations with a constant raw mask `raw`, starting
from blended state `b`. -/
def blendIter (raw b : List ℚ) : ℕ → List ℚ
  | 0 => b
  | n + 1 => blendUpdate (some (blendIter raw b n)) raw

/-- Per-cell distance between the blended mask after `n` constant-raw
invocations and the raw mask itself. -/
def distToRaw (raw b : List ℚ) (i n : ℕ) : ℚ :=
  |(blendIter raw b n).getD i 0 - raw.getD i 0|

/-! ## Load controller (App.jsx lines 1780–1783)

State is the pair `(avgFrameTimeRef.current, skipIntervalRef.current)`;
initial values `16` and `1` (lines 1667–1668). -/

/-- `avg = avg * 0.9 + segTime * 0.1` (line 1781). -/
def updateAvg (avg t : ℚ) : ℚ := avg * (9/10) + t * (1/10)

/-- `if (avg > 8 && skip < 2) skip++; else if (avg < 3 && skip > 1) skip--`
(lines 1782–1783). -/
def updateSkip (avg : ℚ) (skip : ℕ) : ℕ :=
  if 8 < avg ∧ skip < 2 then skip + 1
  else if avg < 3 ∧ 1 < skip then skip - 1
  else skip

/-- One load-controller update from a measured segmentation latency `t`. -/
def loadStep (s : ℚ × ℕ) (t : ℚ) : ℚ × ℕ :=
  let a := updateAvg s.1 t
  (a, updateSkip a s.2)

/-- Initial load-controller state: `avgFrameTimeRef = useRef(16)`,
`skipIntervalRef = useRef(1)`. -/
def loadInit : ℚ × ℕ := (16, 1)

/-- `n` consecutive measurements with constant latency `t`. -/
def loadIter (s : ℚ × ℕ) (t : ℚ) : ℕ → ℚ × ℕ
  | 0 => s
  | n + 1 => loadStep (loadIter s t n) t

/-- A run of the load controller over an arbitrary latency sequence. -/
def runLoad (s : ℚ × ℕ) (ts : List ℚ) : ℚ × ℕ := ts.foldl loadStep s

/-- States of the load controller in which the skip interval is a positive
integer at most 2 and, when pinned at 2, the smoothed average did not sit
below the lower threshold at the moment it was last updated. -/
def LoadInv (s : ℚ × ℕ) : Prop := 1 ≤ s.2 ∧ s.2 ≤ 2 ∧ (s.2 = 2 → 3 ≤ s.1)

instance (s : ℚ × ℕ) : Decidable (LoadInv s) := by
  unfold LoadInv
  infer_instance

/-! ## Frame pump (App.jsx lines 1687–1828)

One iteration of the `draw` callback, for frames that reach the body
(the video element exists and is playing). Flags and the segmentation
outcome observable by the iteration are bundled into `FrameInput`;
mutable refs surviving across iterations form `PumpState`. -/

/-- Rendering mode selected by `u_mode`: `0` = passthrough, `1` = composite. -/
inductive Mode where
  | passthrough : Mode
  | composite : Mode
deriving DecidableEq

/-- Cross-iteration mutable refs of `useBackgroundEffect`. -/
structure PumpState where
  lastW : ℕ
  lastH : ℕ
  frameCount : ℕ
  skipInterval : ℕ
  avgFrameTime : ℚ
  hasMask : Bool
  blendMask : Option (List ℚ)
  rawMaskTex : Option (List ℚ)
  maskTex : Option (List ℚ)
  maskAllocW : ℕ
  maskAllocH : ℕ
deriving DecidableEq

/-- Ref initial values (App.jsx lines 1659–1668): `lastDimsRef = {w:0,h:0}`,
`frameCountRef = 0`, `maskAllocRef = {w:0,h:0}`, `hasMaskRef = false`,
`blendMaskRef = null`, `avgFrameTimeRef = 16`, `skipIntervalRef = 1`. -/
def initState : PumpState :=
  { lastW := 0, lastH := 0, frameCount := 0, skipInterval := 1,
    avgFrameTime := 16, hasMask := false, blendMask := none,
    rawMaskTex := none, maskTex := none, maskAllocW := 0, maskAllocH := 0 }

/-- Per-iteration observations: current video dimensions, whether the
selection is the `none` background, whether the segmenter is ready (the
`curReady` flag together with a live `segmenterRef.current`), and — if a
segmentation call were made this iteration — its outcome (`some mask` on
success, `none` when the call throws or yields no confidence mask) and
its measured latency. -/
structure FrameInput where
  videoWidth : ℕ
  videoHeight : ℕ
  bgNone : Bool
  segmenterReady : Bool
  segResult : Option (List ℚ)
  segTime : ℚ
deriving DecidableEq

/-- What one iteration draws: the shader mode, whether the video texture
storage was reallocated this frame, and whether a segmentation call was
made. -/
structure FrameOutput where
  mode : Mode
  videoRealloc : Bool
  segmented : Bool
deriving DecidableEq

/-- `const w = video.videoWidth || 640` (line 1694). -/
def effW (w : ℕ) : ℕ := if w = 0 then 640 else w

/-- `const h = video.videoHeight || 480` (line 1695). -/
def effH (h : ℕ) : ℕ := if h = 0 then 480 else h

/-- Lines 1740–1778: on a successful segmentation, upload the raw mask,
run the blender, upload the blended mask, record the mask allocation and
set `hasMaskRef`; on failure (`mask` null) nothing changes. -/
def segUpdate (s : PumpState) (res : Option (List ℚ)) : PumpState :=
  match res with
  | some mask =>
      { s with
        rawMaskTex := some mask,
        blendMask := some (blendUpdate s.blendMask mask),
        maskTex := some (blendUpdate s.blendMask mask),
        maskAllocW := SEG_WIDTH, maskAllocH := SEG_HEIGHT,
        hasMask := true }
  | none => s

/-- Lines 1780–1783 applied to the pump state. -/
def loadUpdate (s : PumpState) (t : ℚ) : PumpState :=
  let avg := updateAvg s.avgFrameTime t
  { s with avgFrameTime := avg, skipInterval := updateSkip avg s.skipInterval }

/-- One iteration of `draw` (lines 1694–1827). -/
def drawStep (s : PumpState) (inp : FrameInput) : PumpState × FrameOutput :=
  let w := effW inp.videoWidth
  let h := effH inp.videoHeight
  let realloc : Bool := decide (¬ (s.lastW = w ∧ s.lastH = h))
  let s1 : PumpState := { s with lastW := w, lastH := h }
  if inp.bgNone || !inp.segmenterReady then
    (s1, ⟨Mode.passthrough, realloc, false⟩)
  else
    let s2 : PumpState := { s1 with frameCount := s1.frameCount + 1 }
    let shouldSeg : Bool := decide (s2.frameCount % s2.skipInterval = 0)
    let s3 : PumpState :=
      if shouldSeg then loadUpdate (segUpdate s2 inp.segResult) inp.segTime else s2
    (s3, ⟨if s3.hasMask then Mode.composite else Mode.passthrough, realloc, shouldSeg⟩)

/-- A run of the pump over a list of frame inputs, collecting the final
state and every frame's output. -/
def runPump (s : PumpState) : List FrameInput → PumpState × List FrameOutput
  | [] => (s, [])
  | inp :: rest =>
      let step := drawStep s inp
      let tail := runPump step.1 rest
      (tail.1, step.2 :: tail.2)

/-- A frame input that only carries video dimensions (background disabled):
used to state the resize-handling claim. -/
def mkDimInput (d : ℕ × ℕ) : FrameInput :=
  { videoWidth := d.1, videoHeight := d.2, bgNone := true,
    segmenterReady := false, segResult := none, segTime := 0 }

/-! ## Fragment shader `FRAG_SRC` (App.jsx lines 1505–1563)

GLSL floats are embedded as `ℝ`; texture units are sampling functions
from UV coordinates. GLSL built-ins `mix`, `step`, `clamp`, `smoothstep`
and `length` are spelled out. -/

/-- An RGBA sample. -/
structure Vec4 where
  r : ℝ
  g : ℝ
  b : ℝ
  a : ℝ

/-- `dot(c.rgb, vec3(0.299, 0.587, 0.114))` (line 1521). -/
noncomputable def lumaDot (c : Vec4) : ℝ :=
  (299/1000) * c.r + (587/1000) * c.g + (114/1000) * c.b

/-- GLSL `step(edge, x)`. -/
noncomputable def glStep (edge x : ℝ) : ℝ := if x < edge then 0 else 1

/-- GLSL `mix(x, y, t) = x*(1-t) + y*t`. -/
noncomputable def glMix (x y t : ℝ) : ℝ := x * (1 - t) + y * t

/-- GLSL `clamp(x, lo, hi)`. -/
noncomputable def glClamp (x lo hi : ℝ) : ℝ := min (max x lo) hi

/-- GLSL `smoothstep(e0, e1, x)`. -/
noncomputable def glSmoothstep (e0 e1 x : ℝ) : ℝ :=
  let t := glClamp ((x - e0) / (e1 - e0)) 0 1
  t * t * (3 - 2 * t)

/-- Componentwise `mix` on RGBA as used in `mix(bg, vid, m)` (line 1562). -/
noncomputable def glMix4 (x y : Vec4) (t : ℝ) : Vec4 :=
  ⟨glMix x.r y.r t, glMix x.g y.g t, glMix x.b y.b t, glMix x.a y.a t⟩

/-- The `(dx, dy)` pairs visited by the 3×3 loops of pass 1
(lines 1527–1528), inner `dx` fastest. -/
def offsets : List (ℤ × ℤ) :=
  [(-1, -1), (0, -1), (1, -1), (-1, 0), (0, 0), (1, 0), (-1, 1), (0, 1), (1, 1)]

/-- Pass 1, joint bilateral upsampling (lines 1523–1543): returns the
pair `(mRaw, mBlend)` of upsampled raw and blended mask values. -/
noncomputable def bilateral (video : ℝ × ℝ → Vec4) (rawTex blendTex : ℝ × ℝ → ℝ)
    (maskTexel uv : ℝ × ℝ) : ℝ × ℝ :=
  let lumC := lumaDot (video uv)
  let acc := offsets.foldl
    (fun (acc : ℝ × ℝ × ℝ) d =>
      let mUV : ℝ × ℝ := (uv.1 + (d.1 : ℝ) * maskTexel.1, uv.2 + (d.2 : ℝ) * maskTexel.2)
      let rawV := rawTex mUV
      let blndV := blendTex mUV
      let lumN := lumaDot (video mUV)
      let wS := Real.exp (-(((d.1 * d.1 + d.2 * d.2 : ℤ) : ℝ)) * (1/2))
      let dL := lumN - lumC
      let wR := Real.exp (-(dL * dL) * 35)
      let w := wS * wR
      (acc.1 + rawV * w, acc.2.1 + blndV * w, acc.2.2 + w))
    (0, 0, 0)
  (acc.1 / acc.2.2, acc.2.1 / acc.2.2)

/-- `uncertainty = 1.0 - abs(mRaw * 2.0 - 1.0)` (line 1546). -/
noncomputable def uncOf (mRaw : ℝ) : ℝ := 1 - |mRaw * 2 - 1|

/-- Pass 2, boundary-aware raw/blend mix (line 1547):
`m = mix(mBlend, mRaw, clamp(uncertainty * 2.0, 0.0, 1.0))`. -/
noncomputable def boundaryMix (mBlend mRaw : ℝ) : ℝ :=
  glMix mBlend mRaw (glClamp (uncOf mRaw * 2) 0 1)

/-- Pass 3 gradient magnitude (lines 1550–1554):
`videoEdge = clamp(length(vec2(lumR - lumL, lumU - lumD)) * 7.0, 0.0, 1.0)`. -/
noncomputable def videoEdgeOf (video : ℝ × ℝ → Vec4) (texel uv : ℝ × ℝ) : ℝ :=
  let lumR := lumaDot (video (uv.1 + texel.1, uv.2))
  let lumL := lumaDot (video (uv.1 - texel.1, uv.2))
  let lumU := lumaDot (video (uv.1, uv.2 + texel.2))
  let lumD := lumaDot (video (uv.1, uv.2 - texel.2))
  glClamp (Real.sqrt ((lumR - lumL) ^ 2 + (lumU - lumD) ^ 2) * 7) 0 1

/-- Pass 3 snap (lines 1555–1556): `mSnap = step(0.5, m);
m = mix(m, mSnap, videoEdge * uncertainty * 0.85)`. -/
noncomputable def edgeSnap (m unc vEdge : ℝ) : ℝ :=
  glMix m (glStep (1/2) m) (vEdge * unc * (85/100))

/-- The whole fragment shader `main` (lines 1517–1562). `u_mode == 0`
short-circuits to the raw video sample; otherwise the four passes run
and the output is `mix(bg, vid, m)`. -/
noncomputable def fragMain (video : ℝ × ℝ → Vec4) (blendTex rawTex : ℝ × ℝ → ℝ)
    (bgTex : ℝ × ℝ → Vec4) (mode : ℤ) (texel maskTexel uv : ℝ × ℝ) : Vec4 :=
  let vid := video uv
  if mode = 0 then vid
  else
    let mb := bilateral video rawTex blendTex maskTexel uv
    let unc := uncOf mb.1
    let m1 := boundaryMix mb.2 mb.1
    let m2 := edgeSnap m1 unc (videoEdgeOf video texel uv)
    let m3 := glSmoothstep (33/100) (67/100) m2
    glMix4 (bgTex uv) vid m3

/-- A synthetic full-resolution video frame with a vertical
black-to-white edge at `x = 1/2`: used to exhibit a maximal Sobel
response in the shader. -/
noncomputable def stepEdgeVideo : ℝ × ℝ → Vec4 :=
  fun p => if (1/2 : ℝ) < p.1 then ⟨1, 1, 1, 1⟩ else ⟨0, 0, 0, 0⟩

/-! ## Helper lemmas -/

theorem zipWith_getD (f : ℚ → ℚ → ℚ) (l1 l2 : List ℚ) (i : ℕ)
    (h1 : i < l1.length) (h2 : i < l2.length) :
    (List.zipWith f l1 l2).getD i 0 = f (l1.getD i 0) (l2.getD i 0) := by
  induction l1 generalizing l2 i with
  | nil => simp at h1
  | cons a l ih =>
    cases l2 with
    | nil => simp at h2
    | cons b l2 =>
      cases i with
      | zero => rfl
      | succ i =>
        simp only [List.zipWith_cons_cons, List.getD_cons_succ]
        exact ih l2 i (by simpa using h1) (by simpa using h2)

/-- C1: with a same-length previous blended mask, the global blend weight is
`min(0.9, 0.15 + diff * 6)` for the strided (every 16th cell) mean absolute
difference `diff`, and each blended cell equals
`raw[i] * localAlpha + old[i] * (1 - localAlpha)` where
`localAlpha = globalAlpha + u * (1 - globalAlpha)` and `u = 1 - |2*raw[i] - 1|`
(the `alpha_max` of the spec is exactly 1 in the code). -/
theorem C1_blend_formula (prev mask : List ℚ) (i : ℕ)
    (hlen : prev.length = mask.length) (hi : i < mask.length) :
    globalAlphaOf mask prev = min (9/10) (15/100 + stridedDiff mask prev * 6) ∧
    (blendUpdate (some prev) mask).getD i 0 =
      mask.getD i 0 *
        (globalAlphaOf mask prev +
          (1 - |2 * mask.getD i 0 - 1|) * (1 - globalAlphaOf mask prev)) +
      prev.getD i 0 *
        (1 - (globalAlphaOf mask prev +
          (1 - |2 * mask.getD i 0 - 1|) * (1 - globalAlphaOf mask prev))) := by
  refine ⟨rfl, ?_⟩
  have hu : blendUpdate (some prev) mask = blendMasks mask prev := by
    simp only [blendUpdate, if_pos hlen]
  rw [hu]
  unfold blendMasks
  rw [zipWith_getD _ _ _ _ hi (hlen ▸ hi)]
  unfold blendCell localAlphaOf uncertaintyOf
  rw [mul_comm (mask.getD i 0) 2]

/-- Witness for C1 at `prev = 16 × 0`, `mask = 16 × 1`, `i = 0`. -/
theorem C1_blend_formula_witness :
    globalAlphaOf (List.replicate 16 (1 : ℚ)) (List.replicate 16 (0 : ℚ)) =
      min (9/10)
        (15/100 + stridedDiff (List.replicate 16 (1 : ℚ)) (List.replicate 16 (0 : ℚ)) * 6) ∧
    (blendUpdate (some (List.replicate 16 (0 : ℚ))) (List.replicate 16 (1 : ℚ))).getD 0 0 =
      (List.replicate 16 (1 : ℚ)).getD 0 0 *
        (globalAlphaOf (List.replicate 16 (1 : ℚ)) (List.replicate 16 (0 : ℚ)) +
          (1 - |2 * (List.replicate 16 (1 : ℚ)).getD 0 0 - 1|) *
            (1 - globalAlphaOf (List.replicate 16 (1 : ℚ)) (List.replicate 16 (0 : ℚ)))) +
      (List.replicate 16 (0 : ℚ)).getD 0 0 *
        (1 - (globalAlphaOf (List.replicate 16 (1 : ℚ)) (List.replicate 16 (0 : ℚ)) +
          (1 - |2 * (List.replicate 16 (1 : ℚ)).getD 0 0 - 1|) *
            (1 - globalAlphaOf (List.replicate 16 (1 : ℚ)) (List.replicate 16 (0 : ℚ))))) :=
  C1_blend_formula (List.replicate 16 0) (List.replicate 16 1) 0 (by decide) (by decide)

theorem drawStep_early (s : PumpState) (inp : FrameInput)
    (h : inp.bgNone = true ∨ inp.segmenterReady = false) :
    drawStep s inp =
      ({ s with lastW := effW inp.videoWidth, lastH := effH inp.videoHeight },
       ⟨Mode.passthrough,
        decide (¬ (s.lastW = effW inp.videoWidth ∧ s.lastH = effH inp.videoHeight)),
        false⟩) := by
  unfold drawStep
  rcases h with h | h <;> simp [h]

theorem drawStep_main (s : PumpState) (inp : FrameInput)
    (hbg : inp.bgNone = false) (hrdy : inp.segmenterReady = true) :
    drawStep s inp =
      (if decide ((s.frameCount + 1) % s.skipInterval = 0) then
          loadUpdate
            (segUpdate
              { s with lastW := effW inp.videoWidth, lastH := effH inp.videoHeight,
                       frameCount := s.frameCount + 1 } inp.segResult) inp.segTime
        else
          { s with lastW := effW inp.videoWidth, lastH := effH inp.videoHeight,
                   frameCount := s.frameCount + 1 },
       ⟨if (if decide ((s.frameCount + 1) % s.skipInterval = 0) then
              loadUpdate
                (segUpdate
                  { s with lastW := effW inp.videoWidth, lastH := effH inp.videoHeight,
                           frameCount := s.frameCount + 1 } inp.segResult) inp.segTime
            else
              { s with lastW := effW inp.videoWidth, lastH := effH inp.videoHeight,
                       frameCount := s.frameCount + 1 }).hasMask
          then Mode.composite else Mode.passthrough,
        decide (¬ (s.lastW = effW inp.videoWidth ∧ s.lastH = effH inp.videoHeight)),
        decide ((s.frameCount + 1) % s.skipInterval = 0)⟩) := by
  unfold drawStep
  simp [hbg, hrdy]

/-- C2: when the background selection is none, or the segmenter is not
ready, or by the end of the iteration no mask has ever been acquired, the
frame is drawn in passthrough mode; and the mode-0 shader returns the
video sample untouched for every choice of mask and background textures. -/
theorem C2_passthrough (s : PumpState) (inp : FrameInput)
    (video : ℝ × ℝ → Vec4) (blendTex rawTex : ℝ × ℝ → ℝ) (bgTex : ℝ × ℝ → Vec4)
    (texel maskTexel uv : ℝ × ℝ)
    (h : inp.bgNone = true ∨ inp.segmenterReady = false ∨
      (drawStep s inp).1.hasMask = false) :
    (drawStep s inp).2.mode = Mode.passthrough ∧
    fragMain video blendTex rawTex bgTex 0 texel maskTexel uv = video uv := by
  refine ⟨?_, by simp [fragMain]⟩
  by_cases hbg : inp.bgNone = true
  · rw [drawStep_early s inp (Or.inl hbg)]
  · by_cases hrdy : inp.segmenterReady = true
    · have hm : (drawStep s inp).1.hasMask = false := by
        rcases h with h | h | h
        · exact absurd h hbg
        · rw [hrdy] at h; simp at h
        · exact h
      rw [drawStep_main s inp (Bool.eq_false_iff.mpr hbg) hrdy] at hm ⊢
      simp only at hm ⊢
      rw [hm]
      simp
    · rw [drawStep_early s inp (Or.inr (Bool.eq_false_iff.mpr hrdy))]

/-- Witness for C2 at the initial state with background selection none. -/
theorem C2_passthrough_witness :
    (drawStep initState (mkDimInput (640, 480))).2.mode = Mode.passthrough ∧
    fragMain (fun _ => ⟨0, 0, 0, 0⟩) (fun _ => 0) (fun _ => 0) (fun _ => ⟨0, 0, 0, 0⟩)
      0 (1, 1) (1, 1) (0, 0) = (fun _ : ℝ × ℝ => (⟨0, 0, 0, 0⟩ : Vec4)) (0, 0) :=
  C2_passthrough initState (mkDimInput (640, 480))
    (fun _ => ⟨0, 0, 0, 0⟩) (fun _ => 0) (fun _ => 0) (fun _ => ⟨0, 0, 0, 0⟩)
    (1, 1) (1, 1) (0, 0) (Or.inl rfl)

theorem drawStep_no_mask (s : PumpState) (inp : FrameInput)
    (hm : s.hasMask = false) (hres : inp.segResult = none) :
    (drawStep s inp).1.hasMask = false ∧ (drawStep s inp).2.mode = Mode.passthrough := by
  unfold drawStep
  by_cases hc : (inp.bgNone || !inp.segmenterReady) = true
  · simp [hc, hm]
  · by_cases hseg : (s.frameCount + 1) % s.skipInterval = 0
    · simp [hc, hseg, hres, loadUpdate, segUpdate, hm]
    · simp [hc, hseg, hm]

theorem runPump_no_mask (s : PumpState) (inputs : List FrameInput)
    (hm : s.hasMask = false) (hall : ∀ j ∈ inputs, j.segResult = none) :
    (runPump s inputs).1.hasMask = false ∧
    ∀ o ∈ (runPump s inputs).2, o.mode = Mode.passthrough := by
  induction inputs generalizing s with
  | nil => exact ⟨hm, by simp [runPump]⟩
  | cons inp rest ih =>
    obtain ⟨h1, h2⟩ := drawStep_no_mask s inp hm (hall inp (by simp))
    obtain ⟨h3, h4⟩ := ih (drawStep s inp).1 h1 (fun j hj => hall j (by simp [hj]))
    refine ⟨h3, ?_⟩
    intro o ho
    simp only [runPump, List.mem_cons] at ho
    rcases ho with ho | ho
    · rw [ho]; exact h2
    · exact h4 o ho

/-- C3: on a blender invocation without usable history (no prior blended
mask, or mismatched length) the blended mask is a direct copy of the raw
mask; when the first successful segmentation happens, the iteration stores
exactly that copy and draws in composite mode; and as long as no
segmentation has succeeded, every iteration from session start draws in
passthrough mode. -/
theorem C3_first_mask (s : PumpState) (inp : FrameInput) (mask : List ℚ)
    (hbg : inp.bgNone = false) (hrdy : inp.segmenterReady = true)
    (hm : s.hasMask = false) (hblend : s.blendMask = none)
    (hseg : inp.segResult = some mask)
    (hs : (s.frameCount + 1) % s.skipInterval = 0) :
    blendUpdate none mask = mask ∧
    (∀ p : List ℚ, p.length ≠ mask.length → blendUpdate (some p) mask = mask) ∧
    (drawStep s inp).1.blendMask = some mask ∧
    (drawStep s inp).2.mode = Mode.composite ∧
    (∀ inputs : List FrameInput, (∀ j ∈ inputs, j.segResult = none) →
      (runPump initState inputs).1.hasMask = false ∧
      ∀ o ∈ (runPump initState inputs).2, o.mode = Mode.passthrough) := by
  refine ⟨rfl, fun p hp => by simp [blendUpdate, hp], ?_, ?_,
    fun inputs h => runPump_no_mask initState inputs rfl h⟩
  · unfold drawStep
    simp [hbg, hrdy, hs, hseg, loadUpdate, segUpdate, hblend, blendUpdate]
  · unfold drawStep
    simp [hbg, hrdy, hs, hseg, loadUpdate, segUpdate]

/-- Witness for C3: first successful segmentation from the initial state. -/
theorem C3_first_mask_witness :
    blendUpdate none (List.replicate 16 (1 : ℚ)) = List.replicate 16 (1 : ℚ) ∧
    (∀ p : List ℚ, p.length ≠ (List.replicate 16 (1 : ℚ)).length →
      blendUpdate (some p) (List.replicate 16 (1 : ℚ)) = List.replicate 16 (1 : ℚ)) ∧
    (drawStep initState
        ⟨640, 480, false, true, some (List.replicate 16 (1 : ℚ)), 5⟩).1.blendMask =
      some (List.replicate 16 (1 : ℚ)) ∧
    (drawStep initState
        ⟨640, 480, false, true, some (List.replicate 16 (1 : ℚ)), 5⟩).2.mode =
      Mode.composite ∧
    (∀ inputs : List FrameInput, (∀ j ∈ inputs, j.segResult = none) →
      (runPump initState inputs).1.hasMask = false ∧
      ∀ o ∈ (runPump initState inputs).2, o.mode = Mode.passthrough) :=
  C3_first_mask initState ⟨640, 480, false, true, some (List.replicate 16 (1 : ℚ)), 5⟩
    (List.replicate 16 1) rfl rfl rfl rfl rfl (by decide)

/-- C5: with an active background and a ready segmenter, a segmentation
call is made iff the incremented frame counter is divisible by the skip
interval; an iteration that skips segmentation leaves both mask textures
and the blended mask untouched, and composites iff a mask already exists. -/
theorem C5_skip_gate (s : PumpState) (inp : FrameInput)
    (hbg : inp.bgNone = false) (hrdy : inp.segmenterReady = true) :
    ((drawStep s inp).2.segmented = true ↔ (s.frameCount + 1) % s.skipInterval = 0) ∧
    ((s.frameCount + 1) % s.skipInterval ≠ 0 →
      (drawStep s inp).1.rawMaskTex = s.rawMaskTex ∧
      (drawStep s inp).1.maskTex = s.maskTex ∧
      (drawStep s inp).1.blendMask = s.blendMask ∧
      ((drawStep s inp).2.mode = Mode.composite ↔ s.hasMask = true)) := by
  constructor
  · unfold drawStep
    simp [hbg, hrdy]
  · intro hns
    unfold drawStep
    simp only [hbg, hrdy]
    simp [hns]

/-- Witness for C5 at the initial state (frame counter 0, skip interval 1). -/
theorem C5_skip_gate_witness :
    ((drawStep initState ⟨640, 480, false, true, none, 5⟩).2.segmented = true ↔
      (initState.frameCount + 1) % initState.skipInterval = 0) ∧
    ((initState.frameCount + 1) % initState.skipInterval ≠ 0 →
      (drawStep initState ⟨640, 480, false, true, none, 5⟩).1.rawMaskTex =
        initState.rawMaskTex ∧
      (drawStep initState ⟨640, 480, false, true, none, 5⟩).1.maskTex =
        initState.maskTex ∧
      (drawStep initState ⟨640, 480, false, true, none, 5⟩).1.blendMask =
        initState.blendMask ∧
      ((drawStep initState ⟨640, 480, false, true, none, 5⟩).2.mode = Mode.composite ↔
        initState.hasMask = true)) :=
  C5_skip_gate initState ⟨640, 480, false, true, none, 5⟩ rfl rfl

/-- C6: when the segmentation call on a segmenting iteration fails (throws
or yields no confidence mask), the blended mask, both mask textures and
the has-mask flag are exactly as the previous iteration left them, and the
frame is composited (or passed through) from that previous state. -/
theorem C6_seg_failure (s : PumpState) (inp : FrameInput)
    (hbg : inp.bgNone = false) (hrdy : inp.segmenterReady = true)
    (hs : (s.frameCount + 1) % s.skipInterval = 0)
    (hres : inp.segResult = none) :
    (drawStep s inp).1.blendMask = s.blendMask ∧
    (drawStep s inp).1.rawMaskTex = s.rawMaskTex ∧
    (drawStep s inp).1.maskTex = s.maskTex ∧
    (drawStep s inp).1.hasMask = s.hasMask ∧
    (drawStep s inp).2.mode =
      (if s.hasMask then Mode.composite else Mode.passthrough) := by
  unfold drawStep
  simp [hbg, hrdy, hs, hres, loadUpdate, segUpdate]

/-- Witness for C6 at the initial state with a failing segmentation call. -/
theorem C6_seg_failure_witness :
    (drawStep initState ⟨640, 480, false, true, none, 5⟩).1.blendMask =
      initState.blendMask ∧
    (drawStep initState ⟨640, 480, false, true, none, 5⟩).1.rawMaskTex =
      initState.rawMaskTex ∧
    (drawStep initState ⟨640, 480, false, true, none, 5⟩).1.maskTex =
      initState.maskTex ∧
    (drawStep initState ⟨640, 480, false, true, none, 5⟩).1.hasMask =
      initState.hasMask ∧
    (drawStep initState ⟨640, 480, false, true, none, 5⟩).2.mode =
      (if initState.hasMask then Mode.composite else Mode.passthrough) :=
  C6_seg_failure initState ⟨640, 480, false, true, none, 5⟩ rfl rfl (by decide) rfl

theorem effW_of_ne (w : ℕ) (h : w ≠ 0) : effW w = w := by simp [effW, h]

theorem effH_of_ne (h : ℕ) (hh : h ≠ 0) : effH h = h := by simp [effH, hh]

theorem drawStep_dims (s : PumpState) (d : ℕ × ℕ) :
    drawStep s (mkDimInput d) =
      ({ s with lastW := effW d.1, lastH := effH d.2 },
       ⟨Mode.passthrough, decide (¬ (s.lastW = effW d.1 ∧ s.lastH = effH d.2)),
        false⟩) :=
  drawStep_early s (mkDimInput d) (Or.inl rfl)

theorem runPump_const_dims (k : ℕ) (s : PumpState) (d : ℕ × ℕ)
    (hw : s.lastW = effW d.1) (hh : s.lastH = effH d.2) :
    runPump s (List.replicate k (mkDimInput d)) =
      (s, List.replicate k ⟨Mode.passthrough, false, false⟩) := by
  induction k generalizing s with
  | zero => rfl
  | succ k ih =>
    rw [List.replicate_succ]
    simp only [runPump]
    rw [drawStep_dims]
    have he : ({ s with lastW := effW d.1, lastH := effH d.2 } : PumpState) = s := by
      rw [← hw, ← hh]
    have hd : decide (¬ (s.lastW = effW d.1 ∧ s.lastH = effH d.2)) = false := by
      simp [hw, hh]
    rw [he, hd, ih s hw hh, List.replicate_succ]

theorem runPump_change_dims (k : ℕ) (hk : 1 ≤ k) (s : PumpState) (d : ℕ × ℕ)
    (hne : ¬ (s.lastW = effW d.1 ∧ s.lastH = effH d.2)) :
    runPump s (List.replicate k (mkDimInput d)) =
      ({ s with lastW := effW d.1, lastH := effH d.2 },
       ⟨Mode.passthrough, true, false⟩ ::
         List.replicate (k - 1) ⟨Mode.passthrough, false, false⟩) := by
  obtain ⟨k, rfl⟩ : ∃ m, k = m + 1 := ⟨k - 1, by omega⟩
  rw [List.replicate_succ]
  simp only [runPump]
  rw [drawStep_dims]
  have hd : decide (¬ (s.lastW = effW d.1 ∧ s.lastH = effH d.2)) = true :=
    decide_eq_true hne
  rw [hd]
  rw [runPump_const_dims k _ d (by simp) (by simp)]
  simp

theorem runPump_append (s : PumpState) (l1 l2 : List FrameInput) :
    runPump s (l1 ++ l2) =
      ((runPump (runPump s l1).1 l2).1,
        (runPump s l1).2 ++ (runPump (runPump s l1).1 l2).2) := by
  induction l1 generalizing s with
  | nil => simp [runPump]
  | cons a l ih => simp [runPump, ih]

theorem countP_realloc_replicate (n : ℕ) :
    List.countP (fun o => o.videoRealloc)
      (List.replicate n (⟨Mode.passthrough, false, false⟩ : FrameOutput)) = 0 := by
  induction n with
  | zero => rfl
  | succ n ih => rw [List.replicate_succ, List.countP_cons]; simp [ih]

/-- C9: the video texture storage is reallocated exactly when the current
effective video dimensions differ from those recorded at the last
allocation; over a session whose dimensions change once (k frames at `d1`
then m frames at `d2`), exactly two reallocations happen (the initial one
and the one at the change) and every other frame reuses the storage. -/
theorem C9_resize (s : PumpState) (inp : FrameInput) (k m : ℕ)
    (d1 d2 : ℕ × ℕ) (hk : 1 ≤ k) (hm : 1 ≤ m)
    (h1 : d1.1 ≠ 0) (h2 : d1.2 ≠ 0) (h3 : d2.1 ≠ 0) (h4 : d2.2 ≠ 0)
    (hne : d1 ≠ d2) :
    ((drawStep s inp).2.videoRealloc = true ↔
      ¬ (s.lastW = effW inp.videoWidth ∧ s.lastH = effH inp.videoHeight)) ∧
    List.countP (fun o => o.videoRealloc)
      (runPump initState
        (List.replicate k (mkDimInput d1) ++ List.replicate m (mkDimInput d2))).2 = 2 := by
  constructor
  · have hh : (drawStep s inp).2.videoRealloc =
        decide (¬ (s.lastW = effW inp.videoWidth ∧ s.lastH = effH inp.videoHeight)) := by
      unfold drawStep
      split <;> rfl
    rw [hh, decide_eq_true_eq]
  · rw [runPump_append]
    have hb1 : ¬ (initState.lastW = effW d1.1 ∧ initState.lastH = effH d1.2) := by
      rw [effW_of_ne d1.1 h1]
      intro hc
      exact h1 (hc.1.symm)
    rw [runPump_change_dims k hk initState d1 hb1]
    have hb2 : ¬ ((({ initState with lastW := effW d1.1, lastH := effH d1.2 } :
        PumpState)).lastW = effW d2.1 ∧
        (({ initState with lastW := effW d1.1, lastH := effH d1.2 } :
        PumpState)).lastH = effH d2.2) := by
      simp only
      rw [effW_of_ne d1.1 h1, effW_of_ne d2.1 h3, effH_of_ne d1.2 h2, effH_of_ne d2.2 h4]
      intro hc
      exact hne (Prod.ext hc.1 hc.2)
    rw [runPump_change_dims m hm _ d2 hb2]
    rw [List.countP_append, List.countP_cons, List.countP_cons]
    rw [countP_realloc_replicate, countP_realloc_replicate]
    rfl

/-- Witness for C9: one 640×480 frame followed by one 1280×720 frame. -/
theorem C9_resize_witness :
    ((drawStep initState (mkDimInput (640, 480))).2.videoRealloc = true ↔
      ¬ (initState.lastW = effW (mkDimInput (640, 480)).videoWidth ∧
         initState.lastH = effH (mkDimInput (640, 480)).videoHeight)) ∧
    List.countP (fun o => o.videoRealloc)
      (runPump initState
        (List.replicate 1 (mkDimInput (640, 480)) ++
         List.replicate 1 (mkDimInput (1280, 720)))).2 = 2 :=
  C9_resize initState (mkDimInput (640, 480)) 1 1 (640, 480) (1280, 720)
    (by decide) (by decide) (by decide) (by decide) (by decide) (by decide) (by decide)

theorem loadStep_skip (s : ℚ × ℕ) (t : ℚ) :
    (loadStep s t).2 = updateSkip (updateAvg s.1 t) s.2 := rfl

theorem loadIter_avg (s : ℚ × ℕ) (t : ℚ) (n : ℕ) :
    (loadIter s t n).1 = t + (9/10 : ℚ) ^ n * (s.1 - t) := by
  induction n with
  | zero =>
    show s.1 = t + (9/10 : ℚ) ^ 0 * (s.1 - t)
    rw [pow_zero]
    ring
  | succ n ih =>
    have hh : (loadIter s t (n + 1)).1 = updateAvg (loadIter s t n).1 t := rfl
    rw [hh, updateAvg, ih, pow_succ]
    ring

theorem loadStep_inv (s : ℚ × ℕ) (t : ℚ) (h : LoadInv s) : LoadInv (loadStep s t) := by
  obtain ⟨h1, h2, h3⟩ := h
  have key : ∀ avg : ℚ, 1 ≤ updateSkip avg s.2 ∧ updateSkip avg s.2 ≤ 2 ∧
      (updateSkip avg s.2 = 2 → 3 ≤ avg) := by
    intro avg
    unfold updateSkip
    split_ifs with hA hB
    · exact ⟨by omega, by omega, fun _ => by linarith [hA.1]⟩
    · exact ⟨by omega, by omega, fun hc => absurd hc (by omega)⟩
    · refine ⟨h1, h2, fun he => ?_⟩
      by_contra hcon
      push_neg at hcon
      exact hB ⟨hcon, by omega⟩
  exact key (updateAvg s.1 t)

theorem loadIter_inv (s : ℚ × ℕ) (t : ℚ) (h : LoadInv s) (n : ℕ) :
    LoadInv (loadIter s t n) := by
  induction n with
  | zero => exact h
  | succ n ih => exact loadStep_inv _ t ih

theorem runLoad_inv (s : ℚ × ℕ) (ts : List ℚ) (h : LoadInv s) :
    LoadInv (runLoad s ts) := by
  induction ts generalizing s with
  | nil => exact h
  | cons a l ih => exact ih _ (loadStep_inv s a h)

theorem loadStep_mono_hi (s : ℚ × ℕ) (t : ℚ) (h : LoadInv s) (ht : 8 < t) :
    s.2 ≤ (loadStep s t).2 := by
  obtain ⟨h1, h2, h3⟩ := h
  rw [loadStep_skip]
  unfold updateSkip
  split_ifs with hA hB
  · omega
  · exfalso
    have hs2 : s.2 = 2 := by omega
    have ha := h3 hs2
    have : 3 + 1/2 ≤ updateAvg s.1 t := by unfold updateAvg; linarith
    linarith [hB.1]
  · exact le_rfl

theorem loadIter_mono_hi (s : ℚ × ℕ) (L : ℚ) (h : LoadInv s) (hL : 8 < L) (n : ℕ) :
    (loadIter s L n).2 ≤ (loadIter s L (n + 1)).2 :=
  loadStep_mono_hi (loadIter s L n) L (loadIter_inv s L h n) hL

theorem updateSkip_hi (avg : ℚ) (skip : ℕ) (h8 : 8 < avg)
    (h1 : 1 ≤ skip) (h2 : skip ≤ 2) : updateSkip avg skip = 2 := by
  unfold updateSkip
  split_ifs with hA hB
  · omega
  · exact absurd hB.1 (by linarith)
  · have : ¬ skip < 2 := fun hc => hA ⟨h8, hc⟩
    omega

theorem updateSkip_lo (avg : ℚ) (skip : ℕ) (h3 : avg < 3)
    (h1 : 1 ≤ skip) (h2 : skip ≤ 2) : updateSkip avg skip = 1 := by
  unfold updateSkip
  split_ifs with hA hB
  · exact absurd hA.1 (by linarith)
  · omega
  · have : ¬ 1 < skip := fun hc => hB ⟨h3, hc⟩
    omega

theorem avg_eventually_hi (s : ℚ × ℕ) (L : ℚ) (hL : 8 < L) :
    ∃ N, ∀ n, N ≤ n → 8 < (loadIter s L n).1 := by
  rcases le_or_lt L s.1 with hc | hc
  · refine ⟨0, fun n _ => ?_⟩
    rw [loadIter_avg]
    have hp : (0:ℚ) ≤ (9/10 : ℚ) ^ n := pow_nonneg (by norm_num) n
    have h0 : 0 ≤ (9/10 : ℚ) ^ n * (s.1 - L) := mul_nonneg hp (by linarith)
    linarith
  · obtain ⟨N, hN⟩ := exists_pow_lt_of_lt_one
      (div_pos (by linarith : (0:ℚ) < L - 8) (by linarith : (0:ℚ) < L - s.1))
      (by norm_num : (9/10 : ℚ) < 1)
    refine ⟨N, fun n hn => ?_⟩
    rw [loadIter_avg]
    have hmono : (9/10 : ℚ) ^ n ≤ (9/10 : ℚ) ^ N :=
      pow_le_pow_of_le_one (by norm_num) (by norm_num) hn
    have hlt : (9/10 : ℚ) ^ n < (L - 8) / (L - s.1) := lt_of_le_of_lt hmono hN
    rw [lt_div_iff₀ (by linarith : (0:ℚ) < L - s.1)] at hlt
    have hr : (9/10 : ℚ) ^ n * (s.1 - L) = -((9/10 : ℚ) ^ n * (L - s.1)) := by ring
    linarith [hr]
  
theorem avg_eventually_lo (s : ℚ × ℕ) (L : ℚ) (hL : L < 3) :
    ∃ N, ∀ n, N ≤ n → (loadIter s L n).1 < 3 := by
  rcases le_or_lt s.1 L with hc | hc
  · refine ⟨0, fun n _ => ?_⟩
    rw [loadIter_avg]
    have hp : (0:ℚ) ≤ (9/10 : ℚ) ^ n := pow_nonneg (by norm_num) n
    have h0 : (9/10 : ℚ) ^ n * (s.1 - L) ≤ 0 :=
      mul_nonpos_iff.mpr (Or.inl ⟨hp, by linarith⟩)
    linarith
  · obtain ⟨N, hN⟩ := exists_pow_lt_of_lt_one
      (div_pos (by linarith : (0:ℚ) < 3 - L) (by linarith : (0:ℚ) < s.1 - L))
      (by norm_num : (9/10 : ℚ) < 1)
    refine ⟨N, fun n hn => ?_⟩
    rw [loadIter_avg]
    have hmono : (9/10 : ℚ) ^ n ≤ (9/10 : ℚ) ^ N :=
      pow_le_pow_of_le_one (by norm_num) (by norm_num) hn
    have hlt : (9/10 : ℚ) ^ n < (3 - L) / (s.1 - L) := lt_of_le_of_lt hmono hN
    rw [lt_div_iff₀ (by linarith : (0:ℚ) < s.1 - L)] at hlt
    linarith

theorem skip_eventually_hi (s : ℚ × ℕ) (L : ℚ) (h : LoadInv s) (hL : 8 < L) :
    ∃ N, ∀ n, N ≤ n → (loadIter s L n).2 = 2 := by
  obtain ⟨N0, hN0⟩ := avg_eventually_hi s L hL
  refine ⟨N0 + 1, fun n hn => ?_⟩
  obtain ⟨m, rfl⟩ : ∃ m, n = m + 1 := ⟨n - 1, by omega⟩
  have hinv := loadIter_inv s L h m
  have havg : 8 < (loadIter s L (m + 1)).1 := hN0 (m + 1) (by omega)
  have hstep : (loadIter s L (m + 1)).2 =
      updateSkip (loadIter s L (m + 1)).1 (loadIter s L m).2 := rfl
  rw [hstep]
  exact updateSkip_hi _ _ havg hinv.1 hinv.2.1

theorem skip_eventually_lo (s : ℚ × ℕ) (L : ℚ) (h : LoadInv s) (hL : L < 3) :
    ∃ N, ∀ n, N ≤ n → (loadIter s L n).2 = 1 := by
  obtain ⟨N0, hN0⟩ := avg_eventually_lo s L hL
  refine ⟨N0 + 1, fun n hn => ?_⟩
  obtain ⟨m, rfl⟩ : ∃ m, n = m + 1 := ⟨n - 1, by omega⟩
  have hinv := loadIter_inv s L h m
  have havg : (loadIter s L (m + 1)).1 < 3 := hN0 (m + 1) (by omega)
  have hstep : (loadIter s L (m + 1)).2 =
      updateSkip (loadIter s L (m + 1)).1 (loadIter s L m).2 := rfl
  rw [hstep]
  exact updateSkip_lo _ _ havg hinv.1 hinv.2.1

/-- C4 counterexample: from the program's initial controller state
(average 16, skip interval 1), one measurement with latency 0 — below the
lower threshold 3 — makes the skip interval increase from 1 to 2, because
the smoothed average (16·0.9 = 14.4) is still above the upper threshold:
under constant below-threshold latency the skip interval is not
monotonically decreasing. -/
theorem C4_counterexample :
    (0:ℚ) < 3 ∧ loadInit.2 = 1 ∧ (loadStep loadInit 0).2 = 2 := by
  refine ⟨by norm_num, rfl, ?_⟩
  rw [loadStep_skip]
  show updateSkip (updateAvg 16 0) 1 = 2
  rw [show updateAvg 16 0 = 72/5 by unfold updateAvg; norm_num]
  unfold updateSkip
  rw [if_pos (⟨by norm_num, by norm_num⟩ : (8:ℚ) < 72/5 ∧ (1:ℕ) < 2)]

/-- C4 (amended): after every segmenter invocation the average becomes
`avg * 0.9 + measured * 0.1`; the skip interval changes by at most 1 per
measurement and every state reachable from the initial one keeps it in
[1, 2]; under constant above-threshold latency it is monotonically
non-decreasing and eventually pinned at its maximum 2, never exceeding it;
under constant below-threshold latency it eventually reaches 1 and stays
there, never going below — but, because the initial average 16 starts
above the upper threshold, the interval may first increase before falling,
so the decrease is not monotonic from every reachable state. -/
theorem C4_amended (s : ℚ × ℕ) (L Lf : ℚ)
    (hinv : LoadInv s) (hL : 8 < L) (hLf : Lf < 3) :
    (∀ t : ℚ, (loadStep s t).1 = s.1 * (9/10) + t * (1/10)) ∧
    (∀ t : ℚ, (loadStep s t).2 ≤ s.2 + 1 ∧ s.2 ≤ (loadStep s t).2 + 1 ∧
      1 ≤ (loadStep s t).2 ∧ (loadStep s t).2 ≤ 2) ∧
    (∀ ts : List ℚ, 1 ≤ (runLoad loadInit ts).2 ∧ (runLoad loadInit ts).2 ≤ 2) ∧
    (∀ n : ℕ, (loadIter s L n).2 ≤ (loadIter s L (n + 1)).2) ∧
    (∃ N, ∀ n, N ≤ n → (loadIter s L n).2 = 2) ∧
    (∀ n : ℕ, (loadIter s L n).2 ≤ 2) ∧
    (∃ N, ∀ n, N ≤ n → (loadIter s Lf n).2 = 1) ∧
    (∀ n : ℕ, 1 ≤ (loadIter s Lf n).2) := by
  refine ⟨fun t => rfl, ?_, ?_, loadIter_mono_hi s L hinv hL,
    skip_eventually_hi s L hinv hL, fun n => (loadIter_inv s L hinv n).2.1,
    skip_eventually_lo s Lf hinv hLf, fun n => (loadIter_inv s Lf hinv n).1⟩
  · intro t
    have hi := loadStep_inv s t hinv
    have h1 := hinv.1
    have h2 := hinv.2.1
    refine ⟨?_, ?_, hi.1, hi.2.1⟩
    · rw [loadStep_skip]; unfold updateSkip; split_ifs <;> omega
    · rw [loadStep_skip]; unfold updateSkip; split_ifs <;> omega
  · intro ts
    have hrl := runLoad_inv loadInit ts ⟨by decide, by decide, fun h => absurd h (by decide)⟩
    exact ⟨hrl.1, hrl.2.1⟩

/-- Witness for C4 (amended) at the initial state with constant latencies
9 (above threshold) and 0 (below threshold). -/
theorem C4_amended_witness :
    (∀ t : ℚ, (loadStep loadInit t).1 = loadInit.1 * (9/10) + t * (1/10)) ∧
    (∀ t : ℚ, (loadStep loadInit t).2 ≤ loadInit.2 + 1 ∧
      loadInit.2 ≤ (loadStep loadInit t).2 + 1 ∧
      1 ≤ (loadStep loadInit t).2 ∧ (loadStep loadInit t).2 ≤ 2) ∧
    (∀ ts : List ℚ, 1 ≤ (runLoad loadInit ts).2 ∧ (runLoad loadInit ts).2 ≤ 2) ∧
    (∀ n : ℕ, (loadIter loadInit 9 n).2 ≤ (loadIter loadInit 9 (n + 1)).2) ∧
    (∃ N, ∀ n, N ≤ n → (loadIter loadInit 9 n).2 = 2) ∧
    (∀ n : ℕ, (loadIter loadInit 9 n).2 ≤ 2) ∧
    (∃ N, ∀ n, N ≤ n → (loadIter loadInit 0 n).2 = 1) ∧
    (∀ n : ℕ, 1 ≤ (loadIter loadInit 0 n).2) :=
  C4_amended loadInit 9 0
    ⟨by decide, by decide, fun h => absurd h (by decide)⟩
    (by norm_num) (by norm_num)

theorem getD_replicate (x : ℚ) (n i : ℕ) (h : i < n) :
    (List.replicate n x).getD i 0 = x := by
  induction n generalizing i with
  | zero => omega
  | succ n ih =>
    cases i with
    | zero => rfl
    | succ i => simpa [List.replicate_succ] using ih i (by omega)

theorem zipWith_replicate_q (f : ℚ → ℚ → ℚ) (x y : ℚ) (n : ℕ) :
    List.zipWith f (List.replicate n x) (List.replicate n y) =
      List.replicate n (f x y) := by
  induction n with
  | zero => rfl
  | succ n ih => simp [List.replicate_succ, ih]

theorem globalAlpha_replicate16 (x y : ℚ) :
    globalAlphaOf (List.replicate 16 x) (List.replicate 16 y) =
      min (9/10) (15/100 + |x - y| * 6) := by
  unfold globalAlphaOf stridedDiff stridedAbsSum
  rw [List.length_replicate]
  rw [show (16 + 15) / 16 = 1 from rfl, Finset.sum_range_one]
  rw [show 16 * 0 = 0 from rfl]
  rw [getD_replicate x 16 0 (by omega), getD_replicate y 16 0 (by omega)]
  rw [show (16 : ℕ) >>> 4 = 1 from rfl]
  norm_num

/-- C7 counterexample: the raw mask is constant (all-ones) from the second
invocation on, yet at the third invocation the global blend weight is 0.75,
not the 0.15 floor, because the code differences the new raw mask against
the previous *blended* mask (still lagging at 0.9 everywhere), not against
the previous raw mask. -/
theorem C7_counterexample :
    blendUpdate (some (blendUpdate none (List.replicate 16 (0:ℚ))))
      (List.replicate 16 (1:ℚ)) = List.replicate 16 (9/10 : ℚ) ∧
    globalAlphaOf (List.replicate 16 (1:ℚ)) (List.replicate 16 (9/10 : ℚ)) = 3/4 ∧
    (3/4 : ℚ) ≠ 15/100 := by
  refine ⟨?_, ?_, by norm_num⟩
  · show blendUpdate (some (List.replicate 16 (0:ℚ))) (List.replicate 16 (1:ℚ)) = _
    have hstep : blendUpdate (some (List.replicate 16 (0:ℚ))) (List.replicate 16 (1:ℚ)) =
        blendMasks (List.replicate 16 (1:ℚ)) (List.replicate 16 (0:ℚ)) := by
      simp only [blendUpdate]
      rw [if_pos (by simp)]
    rw [hstep]
    unfold blendMasks
    rw [globalAlpha_replicate16, zipWith_replicate_q]
    have hg : min (9/10 : ℚ) (15/100 + |(1:ℚ) - 0| * 6) = 9/10 := by
      rw [show |(1:ℚ) - 0| = 1 by norm_num]
      rw [min_eq_left (by norm_num)]
    rw [hg]
    have hcell : blendCell (9/10) 1 0 = 9/10 := by
      unfold blendCell localAlphaOf uncertaintyOf
      norm_num
    rw [hcell]
  · rw [globalAlpha_replicate16]
    rw [show |(1:ℚ) - 9/10| = 1/10 by norm_num]
    rw [min_eq_right (by norm_num)]
    norm_num

theorem stridedAbsSum_nonneg (mask prev : List ℚ) : 0 ≤ stridedAbsSum mask prev :=
  Finset.sum_nonneg fun _ _ => abs_nonneg _

theorem stridedDiff_nonneg (mask prev : List ℚ) : 0 ≤ stridedDiff mask prev :=
  div_nonneg (stridedAbsSum_nonneg mask prev) (Nat.cast_nonneg _)

theorem globalAlpha_lb (mask prev : List ℚ) : 3/20 ≤ globalAlphaOf mask prev := by
  unfold globalAlphaOf
  have hd := stridedDiff_nonneg mask prev
  rw [le_min_iff]
  constructor
  · norm_num
  · nlinarith

theorem globalAlpha_ub (mask prev : List ℚ) : globalAlphaOf mask prev ≤ 9/10 :=
  min_le_left _ _

theorem localAlpha_bounds (g c : ℚ) (hg1 : 3/20 ≤ g) (hg2 : g ≤ 9/10)
    (hc0 : 0 ≤ c) (hc1 : c ≤ 1) :
    g ≤ localAlphaOf g c ∧ localAlphaOf g c ≤ 1 := by
  unfold localAlphaOf uncertaintyOf
  have habs : |c * 2 - 1| ≤ 1 := abs_le.mpr ⟨by linarith, by linarith⟩
  have habs0 : 0 ≤ |c * 2 - 1| := abs_nonneg _
  have h1 : 0 ≤ (1 - |c * 2 - 1|) * (1 - g) :=
    mul_nonneg (by linarith) (by linarith)
  have h2 : (1 - |c * 2 - 1|) * (1 - g) ≤ 1 - g :=
    mul_le_of_le_one_left (by linarith) (by linarith)
  constructor <;> linarith

theorem blendCell_contract (g c b : ℚ) (hg1 : 3/20 ≤ g) (hg2 : g ≤ 9/10)
    (hc0 : 0 ≤ c) (hc1 : c ≤ 1) :
    |blendCell g c b - c| ≤ (17/20) * |b - c| := by
  obtain ⟨ha1, ha2⟩ := localAlpha_bounds g c hg1 hg2 hc0 hc1
  have key : blendCell g c b - c = (b - c) * (1 - localAlphaOf g c) := by
    unfold blendCell
    ring
  rw [key, abs_mul, abs_of_nonneg (by linarith : (0:ℚ) ≤ 1 - localAlphaOf g c)]
  calc |b - c| * (1 - localAlphaOf g c) ≤ |b - c| * (17/20) :=
        mul_le_mul_of_nonneg_left (by linarith) (abs_nonneg _)
    _ = (17/20) * |b - c| := by ring

theorem blendIter_length (raw b : List ℚ) (hlen : b.length = raw.length) (n : ℕ) :
    (blendIter raw b n).length = raw.length := by
  induction n with
  | zero => exact hlen
  | succ n ih =>
    show (blendUpdate (some (blendIter raw b n)) raw).length = raw.length
    simp only [blendUpdate]
    rw [if_pos ih]
    unfold blendMasks
    rw [List.length_zipWith, ih, min_self]

theorem blendIter_succ_getD (raw b : List ℚ) (hlen : b.length = raw.length)
    (i : ℕ) (hi : i < raw.length) (n : ℕ) :
    (blendIter raw b (n + 1)).getD i 0 =
      blendCell (globalAlphaOf raw (blendIter raw b n)) (raw.getD i 0)
        ((blendIter raw b n).getD i 0) := by
  show (blendUpdate (some (blendIter raw b n)) raw).getD i 0 = _
  simp only [blendUpdate]
  rw [if_pos (blendIter_length raw b hlen n)]
  unfold blendMasks
  rw [zipWith_getD _ _ _ _ hi (by rw [blendIter_length raw b hlen n]; exact hi)]

theorem getD_mem_q (l : List ℚ) (i : ℕ) (h : i < l.length) : l.getD i 0 ∈ l := by
  induction l generalizing i with
  | nil => simp at h
  | cons a t ih =>
    cases i with
    | zero => simp
    | succ i => exact List.mem_cons_of_mem a (ih i (by simpa using h))

theorem distToRaw_nonneg (raw b : List ℚ) (i n : ℕ) : 0 ≤ distToRaw raw b i n := by
  unfold distToRaw
  exact abs_nonneg _

theorem distToRaw_contract (raw b : List ℚ) (hlen : b.length = raw.length)
    (hraw : ∀ x ∈ raw, 0 ≤ x ∧ x ≤ 1) (i : ℕ) (hi : i < raw.length) (n : ℕ) :
    distToRaw raw b i (n + 1) ≤ (17/20) * distToRaw raw b i n := by
  unfold distToRaw
  rw [blendIter_succ_getD raw b hlen i hi n]
  obtain ⟨hc0, hc1⟩ := hraw (raw.getD i 0) (getD_mem_q raw i hi)
  exact blendCell_contract _ _ _ (globalAlpha_lb _ _) (globalAlpha_ub _ _) hc0 hc1

theorem distToRaw_geom (raw b : List ℚ) (hlen : b.length = raw.length)
    (hraw : ∀ x ∈ raw, 0 ≤ x ∧ x ≤ 1) (i : ℕ) (hi : i < raw.length) (n : ℕ) :
    distToRaw raw b i n ≤ (17/20 : ℚ) ^ n * distToRaw raw b i 0 := by
  induction n with
  | zero => rw [pow_zero, one_mul]
  | succ n ih =>
    calc distToRaw raw b i (n + 1) ≤ (17/20) * distToRaw raw b i n :=
          distToRaw_contract raw b hlen hraw i hi n
      _ ≤ (17/20) * ((17/20 : ℚ) ^ n * distToRaw raw b i 0) :=
          mul_le_mul_of_nonneg_left ih (by norm_num)
      _ = (17/20 : ℚ) ^ (n + 1) * distToRaw raw b i 0 := by ring

/-- C7 (amended): for blender invocations with a constant raw mask whose
values lie in [0,1], every cell's distance to the raw value shrinks by at
least 15% per invocation — hence is monotonically non-increasing and
converges to 0 without oscillation; the global blend weight, however, is
`min(0.9, 0.15 + 6·d)` where `d` differences the raw mask against the
previous *blended* mask, so it sits at the 0.15 floor only once the
blended mask has converged at the sampled cells, not at every step. -/
theorem C7_amended (raw b : List ℚ) (hlen : b.length = raw.length)
    (hraw : ∀ x ∈ raw, 0 ≤ x ∧ x ≤ 1) (i : ℕ) (hi : i < raw.length) :
    (∀ n, distToRaw raw b i (n + 1) ≤ (17/20) * distToRaw raw b i n) ∧
    (∀ n, distToRaw raw b i (n + 1) ≤ distToRaw raw b i n) ∧
    (∀ ε : ℚ, 0 < ε → ∃ N, ∀ n, N ≤ n → distToRaw raw b i n < ε) := by
  refine ⟨fun n => distToRaw_contract raw b hlen hraw i hi n, fun n => ?_, ?_⟩
  · have h := distToRaw_contract raw b hlen hraw i hi n
    have h0 := distToRaw_nonneg raw b i n
    linarith
  · intro ε hε
    rcases eq_or_lt_of_le (distToRaw_nonneg raw b i 0) with h0 | h0
    · refine ⟨0, fun n _ => ?_⟩
      have hg := distToRaw_geom raw b hlen hraw i hi n
      rw [← h0, mul_zero] at hg
      linarith
    · obtain ⟨N, hN⟩ := exists_pow_lt_of_lt_one
        (div_pos hε h0) (by norm_num : (17/20 : ℚ) < 1)
      refine ⟨N, fun n hn => ?_⟩
      have hg := distToRaw_geom raw b hlen hraw i hi n
      have hmono : (17/20 : ℚ) ^ n ≤ (17/20 : ℚ) ^ N :=
        pow_le_pow_of_le_one (by norm_num) (by norm_num) hn
      have hlt : (17/20 : ℚ) ^ n < ε / distToRaw raw b i 0 := lt_of_le_of_lt hmono hN
      rw [lt_div_iff₀ h0] at hlt
      calc distToRaw raw b i n ≤ (17/20 : ℚ) ^ n * distToRaw raw b i 0 := hg
        _ < ε := hlt

/-- Witness for C7 (amended) at the all-ones raw mask and all-zeros start. -/
theorem C7_amended_witness :
    (∀ n, distToRaw (List.replicate 16 (1:ℚ)) (List.replicate 16 (0:ℚ)) 0 (n + 1) ≤
      (17/20) * distToRaw (List.replicate 16 (1:ℚ)) (List.replicate 16 (0:ℚ)) 0 n) ∧
    (∀ n, distToRaw (List.replicate 16 (1:ℚ)) (List.replicate 16 (0:ℚ)) 0 (n + 1) ≤
      distToRaw (List.replicate 16 (1:ℚ)) (List.replicate 16 (0:ℚ)) 0 n) ∧
    (∀ ε : ℚ, 0 < ε → ∃ N, ∀ n, N ≤ n →
      distToRaw (List.replicate 16 (1:ℚ)) (List.replicate 16 (0:ℚ)) 0 n < ε) :=
  C7_amended (List.replicate 16 1) (List.replicate 16 0) (by simp)
    (fun x hx => by rw [List.eq_of_mem_replicate hx]; norm_num) 0 (by simp)

theorem blendCell_range (g c b : ℚ) (hg1 : 3/20 ≤ g) (hg2 : g ≤ 9/10)
    (hc0 : 0 ≤ c) (hc1 : c ≤ 1) (hb0 : 0 ≤ b) (hb1 : b ≤ 1) :
    0 ≤ blendCell g c b ∧ blendCell g c b ≤ 1 := by
  obtain ⟨ha1, ha2⟩ := localAlpha_bounds g c hg1 hg2 hc0 hc1
  have ha0 : 0 ≤ localAlphaOf g c := by linarith
  unfold blendCell
  constructor
  · have h1 := mul_nonneg hc0 ha0
    have h2 := mul_nonneg hb0 (by linarith : (0:ℚ) ≤ 1 - localAlphaOf g c)
    linarith
  · have h1 : c * localAlphaOf g c ≤ localAlphaOf g c := mul_le_of_le_one_left ha0 hc1
    have h2 : b * (1 - localAlphaOf g c) ≤ 1 - localAlphaOf g c :=
      mul_le_of_le_one_left (by linarith) hb1
    linarith

theorem zipWith_mem_bounds (g : ℚ) (mask p : List ℚ)
    (hg1 : 3/20 ≤ g) (hg2 : g ≤ 9/10)
    (hmask : ∀ x ∈ mask, 0 ≤ x ∧ x ≤ 1) (hp : ∀ x ∈ p, 0 ≤ x ∧ x ≤ 1) :
    ∀ x ∈ List.zipWith (fun c b => blendCell g c b) mask p, 0 ≤ x ∧ x ≤ 1 := by
  induction mask generalizing p with
  | nil => simp
  | cons c t ih =>
    cases p with
    | nil => simp
    | cons b tp =>
      intro x hx
      rw [List.zipWith_cons_cons] at hx
      rcases List.mem_cons.mp hx with h | h
      · obtain ⟨hc0, hc1⟩ := hmask c (by simp)
        obtain ⟨hb0, hb1⟩ := hp b (by simp)
        exact h ▸ blendCell_range g c b hg1 hg2 hc0 hc1 hb0 hb1
      · exact ih tp (fun y hy => hmask y (by simp [hy]))
          (fun y hy => hp y (by simp [hy])) x h

/-- C10: if the raw mask values and (when present) the prior blended mask
values lie in [0,1], every cell of the blender's result lies in [0,1]; the
global weight is in [0,1], each local weight in [globalAlpha, 1], each
updated cell a convex combination, and the initial copy preserves the
range trivially. -/
theorem C10_range (prevOpt : Option (List ℚ)) (mask : List ℚ)
    (hmask : ∀ x ∈ mask, 0 ≤ x ∧ x ≤ 1)
    (hprev : ∀ p, prevOpt = some p → ∀ x ∈ p, 0 ≤ x ∧ x ≤ 1) :
    (∀ x ∈ blendUpdate prevOpt mask, 0 ≤ x ∧ x ≤ 1) ∧
    (∀ p, prevOpt = some p →
      0 ≤ globalAlphaOf mask p ∧ globalAlphaOf mask p ≤ 1 ∧
      ∀ c ∈ mask, globalAlphaOf mask p ≤ localAlphaOf (globalAlphaOf mask p) c ∧
        localAlphaOf (globalAlphaOf mask p) c ≤ 1) := by
  constructor
  · cases prevOpt with
    | none => exact hmask
    | some p =>
      by_cases hl : p.length = mask.length
      · have hb : blendUpdate (some p) mask = blendMasks mask p := by
          simp only [blendUpdate]
          rw [if_pos hl]
        rw [hb]
        exact zipWith_mem_bounds _ mask p (globalAlpha_lb _ _) (globalAlpha_ub _ _)
          hmask (hprev p rfl)
      · have hb : blendUpdate (some p) mask = mask := by
          simp only [blendUpdate]
          rw [if_neg hl]
        rw [hb]
        exact hmask
  · intro p hp
    refine ⟨by linarith [globalAlpha_lb mask p], by linarith [globalAlpha_ub mask p], ?_⟩
    intro c hc
    obtain ⟨hc0, hc1⟩ := hmask c hc
    exact localAlpha_bounds _ c (globalAlpha_lb _ _) (globalAlpha_ub _ _) hc0 hc1

/-- Witness for C10 at an all-ones raw mask with an all-zeros history. -/
theorem C10_range_witness :
    (∀ x ∈ blendUpdate (some (List.replicate 16 (0:ℚ))) (List.replicate 16 (1:ℚ)),
      0 ≤ x ∧ x ≤ 1) ∧
    (∀ p, some (List.replicate 16 (0:ℚ)) = some p →
      0 ≤ globalAlphaOf (List.replicate 16 (1:ℚ)) p ∧
      globalAlphaOf (List.replicate 16 (1:ℚ)) p ≤ 1 ∧
      ∀ c ∈ List.replicate 16 (1:ℚ),
        globalAlphaOf (List.replicate 16 (1:ℚ)) p ≤
          localAlphaOf (globalAlphaOf (List.replicate 16 (1:ℚ)) p) c ∧
        localAlphaOf (globalAlphaOf (List.replicate 16 (1:ℚ)) p) c ≤ 1) :=
  C10_range (some (List.replicate 16 0)) (List.replicate 16 1)
    (fun x hx => by rw [List.eq_of_mem_replicate hx]; norm_num)
    (fun p hp x hx => by
      rw [← Option.some_inj.mp hp] at hx
      rw [List.eq_of_mem_replicate hx]
      norm_num)

/-- C8 counterexample: at a pixel with a maximal-strength video edge
(`videoEdge = 1`, exhibited by an actual black/white step video) and
maximal mask uncertainty (`uncertainty = 1`, i.e. upsampled raw value
1/2), the pre-feather snap yields 37/40 = 0.925 — neither 0 nor 1 — so
the shader does not hard-snap the mask value even in the most favorable
case: it only mixes 85% of the way toward the snapped value. -/
theorem C8_counterexample :
    videoEdgeOf stepEdgeVideo (1/10, 1/10) (1/2, 1/2) = 1 ∧
    uncOf (1/2) = 1 ∧
    boundaryMix 0 (1/2) = 1/2 ∧
    glStep (1/2) (1/2) = 1 ∧
    edgeSnap (1/2) 1 1 = 37/40 ∧
    (37/40 : ℝ) ≠ 0 ∧ (37/40 : ℝ) ≠ 1 := by
  refine ⟨?_, ?_, ?_, ?_, ?_, by norm_num, by norm_num⟩
  · unfold videoEdgeOf stepEdgeVideo lumaDot glClamp
    dsimp only
    rw [if_pos (by norm_num : (1/2 : ℝ) < 1/2 + 1/10)]
    rw [if_neg (by norm_num : ¬ (1/2 : ℝ) < 1/2 - 1/10)]
    rw [if_neg (by norm_num : ¬ (1/2 : ℝ) < 1/2)]
    dsimp only
    rw [show (299/1000 : ℝ) * 1 + 587/1000 * 1 + 114/1000 * 1 -
        (299/1000 * 0 + 587/1000 * 0 + 114/1000 * 0) = 1 by norm_num]
    rw [show (299/1000 : ℝ) * 0 + 587/1000 * 0 + 114/1000 * 0 -
        (299/1000 * 0 + 587/1000 * 0 + 114/1000 * 0) = 0 by norm_num]
    rw [show ((1:ℝ)) ^ 2 + 0 ^ 2 = 1 by norm_num]
    rw [Real.sqrt_one]
    rw [max_eq_left (by norm_num : (0:ℝ) ≤ 1 * 7)]
    rw [min_eq_right (by norm_num : (1:ℝ) ≤ 1 * 7)]
  · unfold uncOf
    rw [show (1/2 : ℝ) * 2 - 1 = 0 by norm_num, abs_zero]
    norm_num
  · unfold boundaryMix glMix glClamp uncOf
    rw [show (1/2 : ℝ) * 2 - 1 = 0 by norm_num, abs_zero]
    rw [show ((1:ℝ) - 0) * 2 = 2 by norm_num]
    rw [max_eq_left (by norm_num : (0:ℝ) ≤ 2), min_eq_right (by norm_num : (1:ℝ) ≤ 2)]
    norm_num
  · unfold glStep
    rw [if_neg (by norm_num : ¬ (1/2 : ℝ) < 1/2)]
  · unfold edgeSnap glMix glStep
    rw [if_neg (by norm_num : ¬ (1/2 : ℝ) < 1/2)]
    norm_num

/-- C8 (amended): where the video gradient and the mask uncertainty are
strong, the pre-feather snap moves the mask value toward the hard value
`step(0.5, m)` — 0 or 1 according to the side of 0.5 that `m` is on — by
the fraction `videoEdge * uncertainty * 0.85`; the remaining gap is scaled
by `1 - videoEdge*uncertainty*0.85 ≥ 0.15`, so the value is pulled at most
85% of the way and never reaches the hard value: a partial snap, not the
hard snap the claim states. -/
theorem C8_amended (m u e : ℝ) (hu0 : 0 ≤ u) (hu1 : u ≤ 1)
    (he0 : 0 ≤ e) (he1 : e ≤ 1) (hm : m ≠ glStep (1/2) m) :
    edgeSnap m u e - glStep (1/2) m =
      (1 - e * u * (85/100)) * (m - glStep (1/2) m) ∧
    |edgeSnap m u e - glStep (1/2) m| ≤ |m - glStep (1/2) m| ∧
    (3/20) * |m - glStep (1/2) m| ≤ |edgeSnap m u e - glStep (1/2) m| ∧
    edgeSnap m u e ≠ glStep (1/2) m := by
  have key : edgeSnap m u e - glStep (1/2) m =
      (1 - e * u * (85/100)) * (m - glStep (1/2) m) := by
    unfold edgeSnap glMix
    ring
  have ht0 : 0 ≤ e * u * (85/100) := by positivity
  have ht1 : e * u * (85/100) ≤ 85/100 := by nlinarith
  have habs := abs_nonneg (m - glStep (1/2) m)
  refine ⟨key, ?_, ?_, ?_⟩
  · rw [key, abs_mul, abs_of_nonneg (by linarith : (0:ℝ) ≤ 1 - e * u * (85/100))]
    nlinarith
  · rw [key, abs_mul, abs_of_nonneg (by linarith : (0:ℝ) ≤ 1 - e * u * (85/100))]
    nlinarith
  · intro hc
    have hz : edgeSnap m u e - glStep (1/2) m = 0 := by rw [hc]; ring
    rw [key] at hz
    rcases mul_eq_zero.mp hz with h | h
    · linarith
    · exact hm (by linarith)

/-- Witness for C8 (amended) at `m = 0.7` with maximal edge and
uncertainty. -/
theorem C8_amended_witness :
    edgeSnap (7/10) 1 1 - glStep (1/2) (7/10) =
      (1 - 1 * 1 * (85/100)) * ((7/10 : ℝ) - glStep (1/2) (7/10)) ∧
    |edgeSnap (7/10) 1 1 - glStep (1/2) (7/10)| ≤
      |(7/10 : ℝ) - glStep (1/2) (7/10)| ∧
    (3/20) * |(7/10 : ℝ) - glStep (1/2) (7/10)| ≤
      |edgeSnap (7/10) 1 1 - glStep (1/2) (7/10)| ∧
    edgeSnap (7/10) 1 1 ≠ glStep (1/2) (7/10) :=
  C8_amended (7/10) 1 1 (by norm_num) (by norm_num) (by norm_num) (by norm_num)
    (by
      unfold glStep
      rw [if_neg (by norm_num : ¬ (7/10 : ℝ) < 1/2)]
      norm_num)
